import Mathlib

/-!
Verification development for the `keith156/ai-ledger` repository.

The repository is a TypeScript ledger app. The parts embedded here are:

* `src/services/geminiService.ts` — the extractor entry points
  `parseInputText` and `parseReceiptImage` (namespace `GeminiService`);
* `src/unnamed/part_000` — a near-duplicate app shell's variant of
  `parseInputText` (namespace `Part000`);
* `src/types.ts` — the `TransactionType` / `Transaction` data model;
* `src/App.tsx` — `confirmTransaction`, `reportData`, `debtBalances`,
  `clearFullDebt`;
* `src/utils/storage.ts` — `getStoredTransactions` / `saveTransactions`.

Modelling conventions, used throughout:

* JSON values are the inductive `Json` below; JSON numbers are modelled as
  integers (no claim under study involves a fractional amount).
* The remote `generateContent` call is an oracle `String → GenOutcome`.
  The source reads `response.text` only through a falsiness test and
  `JSON.parse`, so the oracle's reply is quotiented to the outcome of
  those two operations (`GenOutcome`).
* Committed transactions are modelled at the declared TypeScript types
  (`Transaction` below); `localStorage`'s `JSON.stringify`/`JSON.parse`
  round trip on such well-typed data is modelled as the identity.
* Dates are modelled as integer timestamps; `new Date(t.date) >= startDate`
  on valid ISO strings is timestamp comparison.
-/

namespace AiLedger

/-- A JSON value, as produced by `JSON.parse`. Numbers are modelled as
integers: no claim in this development involves a fractional amount. -/
inductive Json where
  | null
  | bool (b : Bool)
  | num (n : Int)
  | str (s : String)
  | arr (elems : List Json)
  | obj (fields : List (String × Json))

/-- Property access `j.key` on a parsed JSON value: `none` models a JS
`undefined` read. Only objects carry the (non-numeric) keys the source
reads; `JSON.parse` keeps the last of duplicate keys, hence the reversed
lookup. -/
def jsGet (j : Json) (key : String) : Option Json :=
  match j with
  | .obj fields => List.lookup key fields.reverse
  | _ => none

/-- Outcome of one `ai.models.generateContent` call, as consumed by the
extractor. The extractor reads `response.text` only through a falsiness
test (`response.text || "{}"`) and `JSON.parse`, so the string-level reply
is quotiented to the outcome of those operations:

* `throw` — the awaited call raised (network failure, invalid or missing
  API key, service error);
* `replyNoText` — the call returned but `response.text` is `undefined` or
  `""` (both falsy, and both rejected by `JSON.parse`);
* `replyJson j` — `response.text` is a non-empty string on which
  `JSON.parse` succeeds with value `j`;
* `replyBadJson` — `response.text` is a non-empty string on which
  `JSON.parse` throws. -/
inductive GenOutcome where
  | throw
  | replyNoText
  | replyJson (j : Json)
  | replyBadJson

/-- The extractor's result object (`ParseResult` in `src/types.ts`). The
source performs no schema validation on the backend's JSON, so each
declared field holds whatever JSON value the response object carried for
that key (`none` models an absent key / `undefined`). Keys outside the
declared field set are not modelled: no code in the repository reads
them. -/
structure ParseResult where
  intent : Option Json := none
  type : Option Json := none
  amount : Option Json := none
  category : Option Json := none
  counterparty : Option Json := none
  queryRange : Option Json := none
  rawText : String

/-- The degradation value `{ intent: 'UNKNOWN', rawText: text }` returned
by the extractor's catch blocks. -/
def unknownResult (text : String) : ParseResult :=
  { intent := some (.str "UNKNOWN"), rawText := text }

/-- The success-path value `{ ...parsed, rawText: text }`: every declared
field is copied verbatim from the parsed response object, and `rawText`
(written after the spread) is the input text regardless of any `rawText`
key in the response. -/
def spreadWithRawText (j : Json) (text : String) : ParseResult :=
  { intent := jsGet j "intent"
    type := jsGet j "type"
    amount := jsGet j "amount"
    category := jsGet j "category"
    counterparty := jsGet j "counterparty"
    queryRange := jsGet j "queryRange"
    rawText := text }

namespace GeminiService

/-- `parseInputText` from `src/services/geminiService.ts`: the whole body
(client construction, `generateContent` call, `JSON.parse`) sits in one
`try`; the catch returns `{ intent: 'UNKNOWN', rawText: text }`. On
success it returns `{ ...JSON.parse(response.text || "{}"), rawText: text }`,
so a missing/empty `response.text` parses as the empty object. The Lean
function is total: no execution path escapes as an exception. -/
def parseInputText (backend : String → GenOutcome) (text : String) : ParseResult :=
  match backend text with
  | .throw => unknownResult text
  | .replyNoText => spreadWithRawText (.obj []) text
  | .replyJson j => spreadWithRawText j text
  | .replyBadJson => unknownResult text

/-- The interpolation `${parsed.counterparty || 'Unknown'}` in
`parseReceiptImage`: falsy values (absent key, `undefined`, `null`,
`false`, `0`, `""`) give `"Unknown"`; otherwise the value is rendered as
a template literal renders it. The response schema declares
`counterparty` a string, so array/object values (whose JS rendering is
structural) are approximated by a fixed placeholder. -/
def receiptCounterpartyName (v : Option Json) : String :=
  match v with
  | some (.str s) => if s = "" then "Unknown" else s
  | some (.num n) => if n = 0 then "Unknown" else toString n
  | some (.bool b) => if b then "true" else "Unknown"
  | some (.arr _) => "<array>"
  | some (.obj _) => "<object>"
  | some .null => "Unknown"
  | none => "Unknown"

/-- The success-path value of `parseReceiptImage`:
`{ intent: 'RECORD', ...parsed, rawText: `Receipt from ...` }`. The
spread comes after `intent`, so a response carrying an `intent` key
overrides `'RECORD'`; `rawText` is written last and is always the
synthesized description. -/
def receiptResult (j : Json) : ParseResult :=
  { intent := some ((jsGet j "intent").getD (.str "RECORD"))
    type := jsGet j "type"
    amount := jsGet j "amount"
    category := jsGet j "category"
    counterparty := jsGet j "counterparty"
    queryRange := jsGet j "queryRange"
    rawText := "Receipt from " ++ receiptCounterpartyName (jsGet j "counterparty") }

/-- `parseReceiptImage` from `src/services/geminiService.ts`. The catch
returns `{ intent: 'UNKNOWN', rawText: "Failed to scan receipt" }`; the
success path returns `receiptResult` of `JSON.parse(response.text || "{}")`.
The oracle takes the pair (base64 data, MIME type) the call sends. -/
def parseReceiptImage (backend : String × String → GenOutcome)
    (base64Data mimeType : String) : ParseResult :=
  match backend (base64Data, mimeType) with
  | .throw => { intent := some (.str "UNKNOWN"), rawText := "Failed to scan receipt" }
  | .replyNoText => receiptResult (.obj [])
  | .replyJson j => receiptResult j
  | .replyBadJson => { intent := some (.str "UNKNOWN"), rawText := "Failed to scan receipt" }

end GeminiService

namespace Part000

/-- `parseInputText` from `src/unnamed/part_000`. It differs from the
`src/services/geminiService.ts` variant in two ways: `JSON.parse` is
applied to `response.text` with no `|| "{}"` fallback, so an undefined or
empty `response.text` makes `JSON.parse` throw and the catch answer; and
the client constructor sits before the `try`. The constructor only stores
configuration (it performs no I/O) and is modelled as non-throwing. -/
def parseInputText (backend : String → GenOutcome) (text : String) : ParseResult :=
  match backend text with
  | .throw => unknownResult text
  | .replyNoText => unknownResult text
  | .replyJson j => spreadWithRawText j text
  | .replyBadJson => unknownResult text

end Part000

/-- `TransactionType` from `src/types.ts` (a closed string enumeration in
TypeScript). -/
inductive TransactionType where
  | INCOME
  | EXPENSE
  | DEBT
  | DEBT_PAYMENT
deriving DecidableEq, Repr

/-- `Transaction` from `src/types.ts`, at the declared types. `date` is an
integer timestamp (the ISO string of the source compares as its
timestamp for the date arithmetic the claims involve). -/
structure Transaction where
  id : String
  type : TransactionType
  amount : Int
  category : String
  counterparty : Option String := none
  note : Option String := none
  date : Int
deriving DecidableEq, Repr

/-- `pendingConfirm.type || TransactionType.INCOME` in `confirmTransaction`
(src/App.tsx): an absent or falsy `type` defaults to `INCOME`. The typed
`Transaction` cannot carry a value outside the enumeration, so JSON values
other than the four enum strings (which the response schema excludes) are
approximated by the same default. -/
def decodeTxType : Option Json → TransactionType
  | some (.str "INCOME") => .INCOME
  | some (.str "EXPENSE") => .EXPENSE
  | some (.str "DEBT") => .DEBT
  | some (.str "DEBT_PAYMENT") => .DEBT_PAYMENT
  | _ => .INCOME

/-- `pendingConfirm.amount || 0`: an absent or falsy amount defaults to
`0`. Non-numeric amounts (excluded by the response schema's NUMBER
declaration) are approximated by the same default. -/
def decodeAmount : Option Json → Int
  | some (.num n) => n
  | _ => 0

/-- `pendingConfirm.category || 'General'`: an absent, `null` or empty
category defaults to `"General"`. -/
def decodeCategory : Option Json → String
  | some (.str s) => if s = "" then "General" else s
  | _ => "General"

/-- `counterparty: pendingConfirm.counterparty` — copied with no default;
an absent or `null` value is an absent counterparty (non-string values
are excluded by the response schema's STRING declaration). -/
def decodeCounterparty : Option Json → Option String
  | some (.str s) => some s
  | _ => none

/-- The `Transaction` committed by `confirmTransaction` (src/App.tsx):
`id` is `Date.now().toString()` and `date` is `new Date().toISOString()`,
both caller-assigned and passed in here; the remaining fields come from
the pending `ParseResult` through the `||`-defaults of the source. No
validation of any kind is performed before committing. -/
def confirmTransaction (p : ParseResult) (id : String) (date : Int) : Transaction :=
  { id := id
    type := decodeTxType p.type
    amount := decodeAmount p.amount
    category := decodeCategory p.category
    counterparty := decodeCounterparty p.counterparty
    date := date }

/-- The §3 invariant of the specification, as a decidable check: a `DEBT`
or `DEBT_PAYMENT` transaction carries a non-empty counterparty. -/
def debtHasCounterparty (t : Transaction) : Bool :=
  if t.type = .DEBT ∨ t.type = .DEBT_PAYMENT then
    match t.counterparty with
    | some s => decide (s ≠ "")
    | none => false
  else true

/-- The record computed by the `reportData` memo (src/App.tsx). -/
structure ReportData where
  net : Int
  totalIn : Int
  totalOut : Int
  transactions : List Transaction
deriving Repr

/-- `reportData` from `src/App.tsx`, parameterized by the window start
timestamp (the source derives it from the report type and the current
clock; that date arithmetic is outside the model). `filtered` keeps the
transactions with `new Date(t.date) >= startDate`; `income` reduces the
`INCOME`/`DEBT_PAYMENT` ones, `expenses` the `EXPENSE` ones. -/
def reportData (txs : List Transaction) (startDate : Int) : ReportData :=
  let filtered := txs.filter fun t => decide (startDate ≤ t.date)
  let income := (filtered.filter fun t =>
    decide (t.type = .INCOME) || decide (t.type = .DEBT_PAYMENT)).foldl
      (fun sum t => sum + t.amount) 0
  let expenses := (filtered.filter fun t => decide (t.type = .EXPENSE)).foldl
    (fun sum t => sum + t.amount) 0
  { net := income - expenses
    totalIn := income
    totalOut := expenses
    transactions := filtered }

/-- Aggregation following the specification's words, for comparison with
`reportData`: the sum of the amounts of the `INCOME` and `DEBT_PAYMENT`
transactions inside the window. -/
def inflowSpec (txs : List Transaction) (startDate : Int) : Int :=
  ((txs.filter fun t =>
    decide (startDate ≤ t.date) &&
      (decide (t.type = .INCOME) || decide (t.type = .DEBT_PAYMENT))).map
    (·.amount)).sum

/-- Aggregation following the specification's words: the sum of the
amounts of the `EXPENSE` transactions inside the window. -/
def outflowSpec (txs : List Transaction) (startDate : Int) : Int :=
  ((txs.filter fun t =>
    decide (startDate ≤ t.date) && decide (t.type = .EXPENSE)).map
    (·.amount)).sum

/-- Drop the characters satisfying `p` from both ends of a character
list. -/
def trimChars (p : Char → Bool) (l : List Char) : List Char :=
  ((l.dropWhile p).reverse.dropWhile p).reverse

/-- `String.prototype.trim`, as the source applies it to counterparty
names: drop leading and trailing whitespace characters. -/
def jsTrim (s : String) : String :=
  ⟨trimChars Char.isWhitespace s.data⟩

/-- The guarded, trimmed counterparty of one transaction inside the
`debtBalances` loop: `if (tx.counterparty)` skips an absent or empty
(falsy) counterparty, then `tx.counterparty.trim()` names the balance
key. -/
def trimmedCp (t : Transaction) : Option String :=
  match t.counterparty with
  | none => none
  | some s => if s = "" then none else some (jsTrim s)

/-- Update-or-append on an insertion-ordered association list, modelling
assignment to `balances[name]` on a plain JS object. -/
def setKey (m : List (String × Int)) (k : String) (v : Int) :
    List (String × Int) :=
  match m with
  | [] => [(k, v)]
  | (k', v') :: rest =>
      if k' = k then (k, v) :: rest else (k', v') :: setKey rest k v

/-- The line `if (!balances[name]) balances[name] = 0` of the
`debtBalances` loop: a missing entry — or a falsy (zero) one — is
(re)written as `0`. -/
def ensureKey (m : List (String × Int)) (name : String) :
    List (String × Int) :=
  match List.lookup name m with
  | none => setKey m name 0
  | some v => if v = 0 then setKey m name 0 else m

/-- One iteration of the `debtBalances` accumulation (src/App.tsx): skip
transactions without a (truthy) counterparty; ensure the trimmed name has
an entry; add the amount for `DEBT`, subtract it for `DEBT_PAYMENT`,
leave other types alone. -/
def updateBalances (m : List (String × Int)) (t : Transaction) :
    List (String × Int) :=
  match trimmedCp t with
  | none => m
  | some name =>
      match t.type with
      | .DEBT =>
          setKey (ensureKey m name) name
            ((List.lookup name (ensureKey m name)).getD 0 + t.amount)
      | .DEBT_PAYMENT =>
          setKey (ensureKey m name) name
            ((List.lookup name (ensureKey m name)).getD 0 - t.amount)
      | _ => ensureKey m name

/-- The `debtBalances` memo (src/App.tsx): fold the accumulation over the
transaction list, then keep the entries with a strictly positive balance.
Entry order in the JS object is insertion order for the non-numeric keys
at issue; the claims under study only concern membership. -/
def debtBalances (txs : List Transaction) : List (String × Int) :=
  (txs.foldl updateBalances []).filter fun p => decide (0 < p.2)

/-- One transaction's signed contribution, following the specification's
words, to the balance listed under `name`: its amount for a `DEBT`, minus
its amount for a `DEBT_PAYMENT`, for the transactions whose guarded
trimmed counterparty is `name`. -/
def debtContrib (t : Transaction) (name : String) : Int :=
  if trimmedCp t = some name then
    match t.type with
    | .DEBT => t.amount
    | .DEBT_PAYMENT => -t.amount
    | _ => 0
  else 0

/-- The balance the specification's words assign to `name`: total `DEBT`
minus total `DEBT_PAYMENT` over the transactions trimming to `name`. -/
def debtBalanceOf (txs : List Transaction) (name : String) : Int :=
  (txs.map fun t => debtContrib t name).sum

/-- The settlement transaction constructed by `clearFullDebt`
(src/App.tsx): a `DEBT_PAYMENT` of the listed balance against the listed
name, with caller-supplied id and date. -/
def clearFullDebtTx (id : String) (date : Int) (name : String)
    (balance : Int) : Transaction :=
  { id := id
    type := .DEBT_PAYMENT
    amount := balance
    category := "Settlement"
    counterparty := some name
    date := date }

/-- `clearFullDebt` (src/App.tsx) prepends the settlement transaction to
the transaction list (`[paymentTx, ...state.transactions]`). -/
def clearFullDebt (txs : List Transaction) (id : String) (date : Int)
    (name : String) (balance : Int) : List Transaction :=
  clearFullDebtTx id date name balance :: txs

/-- A value stored under the transactions key, at the
`JSON.stringify`/`JSON.parse` level: serializing then parsing a
well-typed transaction array, or a plain string, is modelled as the
identity on these two shapes (the only shapes the program produces
there). -/
inductive StoredValue where
  | txList (txs : List Transaction)
  | str (s : String)
deriving DecidableEq, Repr

/-- The browser `localStorage` visible to `src/utils/storage.ts`. -/
abbrev LocalStorage : Type := String → Option StoredValue

/-- `STORAGE_KEY` from `src/utils/storage.ts`. -/
def STORAGE_KEY : String := "kazi_ledger_data"

/-- `getStoredTransactions` from `src/utils/storage.ts`: read the single
module-level key and return `JSON.parse` of it; a missing entry gives the
empty list. The function declares no user parameter, and its declared
return type `Transaction[]` is not enforced at runtime: the value
returned is whatever was stored. -/
def getStoredTransactions (ls : LocalStorage) : StoredValue :=
  (ls STORAGE_KEY).getD (.txList [])

/-- `saveTransactions` from `src/utils/storage.ts`: write `JSON.stringify`
of its single parameter `txs` under the single module-level key. The
TypeScript annotation declares `txs: Transaction[]`, but JavaScript
enforces nothing at runtime; the embedding takes the value actually
passed at the call site. -/
def saveTransactions (ls : LocalStorage) (txs : StoredValue) :
    LocalStorage :=
  fun k => if k = STORAGE_KEY then some txs else ls k

/-- The call shape used by `src/App.tsx` (`getStoredTransactions(user.id)`):
the function declares no parameter, so JavaScript silently discards the
user id argument. -/
def appGetStoredTransactions (ls : LocalStorage) (userId : String) :
    StoredValue :=
  getStoredTransactions ls

/-- The call shape used by `src/App.tsx`
(`saveTransactions(state.user.id, updated)`): `saveTransactions` declares
the single parameter `txs`, so JavaScript binds `txs` to the first
argument — the user id string — and silently discards the second
argument, the transaction list `updated`. What reaches storage is the
serialized user id. -/
def appSaveTransactions (ls : LocalStorage) (userId : String)
    (txs : List Transaction) : LocalStorage :=
  saveTransactions ls (.str userId)

/-- State-passing form of `GeminiService.parseInputText` over the app's
only shared mutable store: the source function never references
`localStorage` (or any other cross-call mutable binding — its module
state is the read-only environment and a client constructed afresh per
call), so its state-passing compilation returns the store unchanged. -/
def parseInputTextWithStore (ls : LocalStorage)
    (backend : String → GenOutcome) (text : String) :
    ParseResult × LocalStorage :=
  (GeminiService.parseInputText backend text, ls)

/-! ### Supporting lemmas -/

lemma dropWhile_head?_not {α : Type} (p : α → Bool) :
    ∀ (l : List α) (a : α), (l.dropWhile p).head? = some a → p a = false := by
  intro l
  induction l with
  | nil => intro a h; simp [List.dropWhile] at h
  | cons x xs ih =>
      intro a h
      by_cases hx : p x = true
      · rw [List.dropWhile_cons, if_pos hx] at h
        exact ih a h
      · rw [List.dropWhile_cons, if_neg hx] at h
        simp at h
        rw [← h]
        simpa using hx

lemma dropWhile_dropWhile {α : Type} (p : α → Bool) (l : List α) :
    (l.dropWhile p).dropWhile p = l.dropWhile p := by
  cases h : l.dropWhile p with
  | nil => simp
  | cons a t =>
      have ha : p a = false := dropWhile_head?_not p l a (by rw [h]; rfl)
      rw [List.dropWhile_cons, if_neg (by simp [ha])]

lemma trimChars_idem (p : Char → Bool) (l : List Char) :
    trimChars p (trimChars p l) = trimChars p l := by
  unfold trimChars
  have h1 : (((l.dropWhile p).reverse.dropWhile p).reverse).dropWhile p
      = ((l.dropWhile p).reverse.dropWhile p).reverse := by
    cases hR : ((l.dropWhile p).reverse.dropWhile p).reverse with
    | nil => simp
    | cons r rs =>
        have hsplit : (l.dropWhile p).reverse.takeWhile p
            ++ (l.dropWhile p).reverse.dropWhile p = (l.dropWhile p).reverse :=
          List.takeWhile_append_dropWhile p ((l.dropWhile p).reverse)
        have h2 := congrArg List.reverse hsplit
        rw [List.reverse_append, List.reverse_reverse] at h2
        rw [hR] at h2
        have hhead : (l.dropWhile p).head? = some r := by rw [← h2]; rfl
        have hr := dropWhile_head?_not p l r hhead
        rw [List.dropWhile_cons, if_neg (by simp [hr])]
  rw [h1, List.reverse_reverse, dropWhile_dropWhile]

lemma jsTrim_idem (s : String) : jsTrim (jsTrim s) = jsTrim s :=
  congrArg String.mk (trimChars_idem Char.isWhitespace s.data)

lemma lookup_setKey_self (m : List (String × Int)) (k : String) (v : Int) :
    List.lookup k (setKey m k v) = some v := by
  induction m with
  | nil => simp [setKey, List.lookup]
  | cons p rest ih =>
      by_cases h : p.1 = k
      · simp [setKey, h, List.lookup]
      · simp [setKey, h, List.lookup, ih, beq_false_of_ne (Ne.symm h)]

lemma lookup_setKey_ne (m : List (String × Int)) (k k' : String) (v : Int)
    (h : k' ≠ k) : List.lookup k' (setKey m k v) = List.lookup k' m := by
  induction m with
  | nil => simp [setKey, List.lookup, beq_false_of_ne h]
  | cons p rest ih =>
      by_cases hp : p.1 = k
      · subst hp
        simp [setKey, List.lookup, beq_false_of_ne h]
      · simp [setKey, hp, List.lookup, ih]

lemma mem_keys_setKey (m : List (String × Int)) (k k' : String) (v : Int) :
    k' ∈ (setKey m k v).map Prod.fst ↔ k' = k ∨ k' ∈ m.map Prod.fst := by
  induction m with
  | nil => simp [setKey]
  | cons p rest ih =>
      obtain ⟨pk, pv⟩ := p
      by_cases hp : pk = k
      · subst hp
        simp [setKey]
      · simp [setKey, hp, ih]
        tauto

lemma nodupKeys_setKey (m : List (String × Int)) (k : String) (v : Int)
    (h : (m.map Prod.fst).Nodup) : ((setKey m k v).map Prod.fst).Nodup := by
  induction m with
  | nil => simp [setKey]
  | cons p rest ih =>
      obtain ⟨pk, pv⟩ := p
      rw [List.map_cons, List.nodup_cons] at h
      by_cases hp : pk = k
      · subst hp
        simpa [setKey, List.nodup_cons] using h
      · rw [show setKey ((pk, pv) :: rest) k v = (pk, pv) :: setKey rest k v from by
          simp [setKey, hp]]
        rw [List.map_cons, List.nodup_cons]
        refine ⟨?_, ih h.2⟩
        intro hmem
        rcases (mem_keys_setKey rest k pk v).1 hmem with he | hin
        · exact hp he
        · exact h.1 hin

lemma mem_iff_lookup_of_nodupKeys (m : List (String × Int)) (k : String)
    (v : Int) (h : (m.map Prod.fst).Nodup) :
    (k, v) ∈ m ↔ List.lookup k m = some v := by
  induction m with
  | nil => simp [List.lookup]
  | cons p rest ih =>
      obtain ⟨pk, pv⟩ := p
      rw [List.map_cons, List.nodup_cons] at h
      rw [List.mem_cons]
      by_cases hp : k = pk
      · subst hp
        simp only [List.lookup, beq_self_eq_true]
        constructor
        · rintro (he | hin)
          · simp_all
          · exact absurd (List.mem_map_of_mem Prod.fst hin) h.1
        · intro he
          simp at he
          subst he
          exact Or.inl rfl
      · simp only [List.lookup, beq_false_of_ne hp]
        constructor
        · rintro (he | hin)
          · exact absurd (congrArg Prod.fst he) hp
          · exact (ih h.2).1 hin
        · intro hl
          exact Or.inr ((ih h.2).2 hl)

lemma debtContrib_of_cp {t : Transaction} {name : String}
    (hcp : trimmedCp t = some name) :
    debtContrib t name =
      match t.type with
      | .DEBT => t.amount
      | .DEBT_PAYMENT => -t.amount
      | _ => 0 := by
  simp [debtContrib, hcp]

lemma debtContrib_of_ne {t : Transaction} {name : String}
    (hcp : trimmedCp t ≠ some name) : debtContrib t name = 0 := by
  simp [debtContrib, hcp]

lemma trimmedCp_trim {t : Transaction} {k : String}
    (h : trimmedCp t = some k) : jsTrim k = k := by
  unfold trimmedCp at h
  cases hc : t.counterparty with
  | none => rw [hc] at h; simp at h
  | some s =>
      rw [hc] at h
      by_cases hs : s = ""
      · simp [hs] at h
      · simp [hs] at h
        rw [← h]
        exact jsTrim_idem s

lemma mem_keys_of_lookup {m : List (String × Int)} {k : String} {v : Int}
    (h : List.lookup k m = some v) : k ∈ m.map Prod.fst := by
  induction m with
  | nil => simp [List.lookup] at h
  | cons p rest ih =>
      obtain ⟨pk, pv⟩ := p
      by_cases hp : k = pk
      · simp [hp]
      · rw [List.lookup, beq_false_of_ne hp] at h
        simp [ih h]

lemma ensureKey_eq (m : List (String × Int)) (name : String) :
    (ensureKey m name = setKey m name 0 ∧ (List.lookup name m).getD 0 = 0) ∨
      (ensureKey m name = m ∧ (List.lookup name m).isSome = true) := by
  unfold ensureKey
  cases h : List.lookup name m with
  | none => exact Or.inl ⟨rfl, rfl⟩
  | some v =>
      by_cases hv : v = 0
      · exact Or.inl ⟨if_pos hv, by rw [Option.getD_some]; exact hv⟩
      · exact Or.inr ⟨if_neg hv, rfl⟩

lemma lookup_ensureKey_self (m : List (String × Int)) (name : String) :
    List.lookup name (ensureKey m name) = some ((List.lookup name m).getD 0) := by
  rcases ensureKey_eq m name with ⟨he, h0⟩ | ⟨he, hs⟩
  · rw [he, lookup_setKey_self, h0]
  · rw [he]
    obtain ⟨v, hv⟩ := Option.isSome_iff_exists.1 hs
    rw [hv]
    rfl

lemma lookup_ensureKey_ne (m : List (String × Int)) (name k : String)
    (h : k ≠ name) :
    List.lookup k (ensureKey m name) = List.lookup k m := by
  rcases ensureKey_eq m name with ⟨he, _⟩ | ⟨he, _⟩
  · rw [he, lookup_setKey_ne m name k 0 h]
  · rw [he]

lemma mem_keys_ensureKey (m : List (String × Int)) (name k : String) :
    k ∈ (ensureKey m name).map Prod.fst ↔ k = name ∨ k ∈ m.map Prod.fst := by
  rcases ensureKey_eq m name with ⟨he, _⟩ | ⟨he, hs⟩
  · rw [he]
    exact mem_keys_setKey m name k 0
  · rw [he]
    constructor
    · exact Or.inr
    · rintro (rfl | hk)
      · obtain ⟨v, hv⟩ := Option.isSome_iff_exists.1 hs
        exact mem_keys_of_lookup hv
      · exact hk

lemma nodupKeys_ensureKey (m : List (String × Int)) (name : String)
    (h : (m.map Prod.fst).Nodup) :
    ((ensureKey m name).map Prod.fst).Nodup := by
  rcases ensureKey_eq m name with ⟨he, _⟩ | ⟨he, _⟩
  · rw [he]
    exact nodupKeys_setKey m name 0 h
  · rw [he]
    exact h

lemma updateBalances_eq_none {t : Transaction} (hcp : trimmedCp t = none)
    (m : List (String × Int)) : updateBalances m t = m := by
  unfold updateBalances
  rw [hcp]

lemma updateBalances_eq_debt {t : Transaction} {n : String}
    (hcp : trimmedCp t = some n) (htt : t.type = .DEBT)
    (m : List (String × Int)) :
    updateBalances m t =
      setKey (ensureKey m n) n
        ((List.lookup n (ensureKey m n)).getD 0 + t.amount) := by
  unfold updateBalances
  rw [hcp, htt]

lemma updateBalances_eq_payment {t : Transaction} {n : String}
    (hcp : trimmedCp t = some n) (htt : t.type = .DEBT_PAYMENT)
    (m : List (String × Int)) :
    updateBalances m t =
      setKey (ensureKey m n) n
        ((List.lookup n (ensureKey m n)).getD 0 - t.amount) := by
  unfold updateBalances
  rw [hcp, htt]

lemma updateBalances_eq_other {t : Transaction} {n : String}
    (hcp : trimmedCp t = some n)
    (htt : t.type = .INCOME ∨ t.type = .EXPENSE)
    (m : List (String × Int)) :
    updateBalances m t = ensureKey m n := by
  unfold updateBalances
  rcases htt with h | h <;> rw [hcp, h]

lemma lookup_updateBalances (m : List (String × Int)) (t : Transaction)
    (name : String) :
    List.lookup name (updateBalances m t) =
      if trimmedCp t = some name then
        some ((List.lookup name m).getD 0 + debtContrib t name)
      else List.lookup name m := by
  cases hcp : trimmedCp t with
  | none =>
      rw [updateBalances_eq_none hcp, if_neg (by simp)]
  | some k =>
      by_cases hk : k = name
      · subst hk
        rw [if_pos rfl, debtContrib_of_cp hcp]
        cases htt : t.type with
        | DEBT =>
            rw [updateBalances_eq_debt hcp htt, lookup_setKey_self,
              lookup_ensureKey_self, Option.getD_some]
        | DEBT_PAYMENT =>
            rw [updateBalances_eq_payment hcp htt, lookup_setKey_self,
              lookup_ensureKey_self, Option.getD_some, sub_eq_add_neg]
        | INCOME =>
            rw [updateBalances_eq_other hcp (Or.inl htt),
              lookup_ensureKey_self]
            simp
        | EXPENSE =>
            rw [updateBalances_eq_other hcp (Or.inr htt),
              lookup_ensureKey_self]
            simp
      · rw [if_neg (show (some k : Option String) ≠ some name by simpa using hk)]
        have hnk : name ≠ k := Ne.symm hk
        cases htt : t.type with
        | DEBT =>
            rw [updateBalances_eq_debt hcp htt,
              lookup_setKey_ne _ _ _ _ hnk, lookup_ensureKey_ne m k name hnk]
        | DEBT_PAYMENT =>
            rw [updateBalances_eq_payment hcp htt,
              lookup_setKey_ne _ _ _ _ hnk, lookup_ensureKey_ne m k name hnk]
        | INCOME =>
            rw [updateBalances_eq_other hcp (Or.inl htt),
              lookup_ensureKey_ne m k name hnk]
        | EXPENSE =>
            rw [updateBalances_eq_other hcp (Or.inr htt),
              lookup_ensureKey_ne m k name hnk]

lemma mem_keys_updateBalances (m : List (String × Int)) (t : Transaction)
    (k : String) :
    k ∈ (updateBalances m t).map Prod.fst ↔
      trimmedCp t = some k ∨ k ∈ m.map Prod.fst := by
  cases hcp : trimmedCp t with
  | none =>
      rw [updateBalances_eq_none hcp]
      simp
  | some n =>
      have key : ∀ Q : Prop,
          ((k = n ∨ Q) ↔ ((some n : Option String) = some k ∨ Q)) := by
        intro Q
        constructor
        · rintro (rfl | hq)
          · exact Or.inl rfl
          · exact Or.inr hq
        · rintro (he | hq)
          · exact Or.inl (Option.some_inj.mp he).symm
          · exact Or.inr hq
      cases htt : t.type with
      | DEBT =>
          rw [updateBalances_eq_debt hcp htt, mem_keys_setKey,
            mem_keys_ensureKey, ← or_assoc, or_self]
          exact key _
      | DEBT_PAYMENT =>
          rw [updateBalances_eq_payment hcp htt, mem_keys_setKey,
            mem_keys_ensureKey, ← or_assoc, or_self]
          exact key _
      | INCOME =>
          rw [updateBalances_eq_other hcp (Or.inl htt), mem_keys_ensureKey]
          exact key _
      | EXPENSE =>
          rw [updateBalances_eq_other hcp (Or.inr htt), mem_keys_ensureKey]
          exact key _

lemma nodupKeys_updateBalances (m : List (String × Int)) (t : Transaction)
    (h : (m.map Prod.fst).Nodup) :
    ((updateBalances m t).map Prod.fst).Nodup := by
  cases hcp : trimmedCp t with
  | none =>
      rw [updateBalances_eq_none hcp]
      exact h
  | some n =>
      cases htt : t.type with
      | DEBT =>
          rw [updateBalances_eq_debt hcp htt]
          exact nodupKeys_setKey _ _ _ (nodupKeys_ensureKey m n h)
      | DEBT_PAYMENT =>
          rw [updateBalances_eq_payment hcp htt]
          exact nodupKeys_setKey _ _ _ (nodupKeys_ensureKey m n h)
      | INCOME =>
          rw [updateBalances_eq_other hcp (Or.inl htt)]
          exact nodupKeys_ensureKey m n h
      | EXPENSE =>
          rw [updateBalances_eq_other hcp (Or.inr htt)]
          exact nodupKeys_ensureKey m n h

lemma nodupKeys_foldBalances (txs : List Transaction) :
    ∀ m : List (String × Int), (m.map Prod.fst).Nodup →
      ((txs.foldl updateBalances m).map Prod.fst).Nodup := by
  induction txs with
  | nil => intro m h; simpa using h
  | cons t rest ih =>
      intro m h
      rw [List.foldl_cons]
      exact ih _ (nodupKeys_updateBalances m t h)

lemma keys_trim_foldBalances (txs : List Transaction) :
    ∀ m : List (String × Int), (∀ k ∈ m.map Prod.fst, jsTrim k = k) →
      ∀ k ∈ (txs.foldl updateBalances m).map Prod.fst, jsTrim k = k := by
  induction txs with
  | nil => intro m h; simpa using h
  | cons t rest ih =>
      intro m h
      rw [List.foldl_cons]
      refine ih _ ?_
      intro k hk
      rcases (mem_keys_updateBalances m t k).1 hk with hcp | hm
      · exact trimmedCp_trim hcp
      · exact h k hm

lemma debtBalanceOf_nil (name : String) : debtBalanceOf [] name = 0 := rfl

lemma debtBalanceOf_cons (t : Transaction) (txs : List Transaction)
    (name : String) :
    debtBalanceOf (t :: txs) name = debtContrib t name + debtBalanceOf txs name := by
  simp [debtBalanceOf]

lemma debtBalanceOf_zero_of_any_false {txs : List Transaction} {name : String}
    (h : txs.any (fun t => trimmedCp t == some name) = false) :
    debtBalanceOf txs name = 0 := by
  induction txs with
  | nil => rfl
  | cons t rest ih =>
      rw [List.any_cons, Bool.or_eq_false_iff] at h
      rw [debtBalanceOf_cons, debtContrib_of_ne (by simpa using h.1), ih h.2,
        add_zero]

lemma lookup_foldBalances (txs : List Transaction) :
    ∀ (m : List (String × Int)) (name : String),
      List.lookup name (txs.foldl updateBalances m) =
        if (List.lookup name m).isSome
            || txs.any (fun t => trimmedCp t == some name) then
          some ((List.lookup name m).getD 0 + debtBalanceOf txs name)
        else none := by
  induction txs with
  | nil =>
      intro m name
      cases h : List.lookup name m <;> simp [h, debtBalanceOf_nil]
  | cons t rest ih =>
      intro m name
      rw [List.foldl_cons, ih (updateBalances m t) name, lookup_updateBalances]
      by_cases hcp : trimmedCp t = some name
      · rw [if_pos hcp]
        have hany : (t :: rest).any (fun t => trimmedCp t == some name) = true := by
          simp [List.any_cons, hcp]
        rw [hany]
        simp [debtBalanceOf_cons, add_assoc]
      · rw [if_neg hcp]
        have hany : (t :: rest).any (fun t => trimmedCp t == some name)
            = rest.any (fun t => trimmedCp t == some name) := by
          simp [List.any_cons, hcp]
        rw [hany, debtBalanceOf_cons, debtContrib_of_ne hcp, zero_add]

lemma mem_debtBalances_iff (txs : List Transaction) (name : String) (b : Int) :
    (name, b) ∈ debtBalances txs ↔
      List.lookup name (txs.foldl updateBalances []) = some b ∧ 0 < b := by
  unfold debtBalances
  rw [List.mem_filter,
    mem_iff_lookup_of_nodupKeys _ _ _ (nodupKeys_foldBalances txs [] (by simp))]
  simp

lemma mem_debtBalances_eq_balance {txs : List Transaction} {name : String}
    {b : Int} (h : (name, b) ∈ debtBalances txs) :
    b = debtBalanceOf txs name ∧ 0 < b := by
  obtain ⟨hl, hb⟩ := (mem_debtBalances_iff txs name b).1 h
  rw [lookup_foldBalances] at hl
  by_cases hc : ((List.lookup name ([] : List (String × Int))).isSome
      || txs.any (fun t => trimmedCp t == some name)) = true
  · rw [if_pos hc] at hl
    simp at hl
    exact ⟨hl.symm, hb⟩
  · rw [if_neg hc] at hl
    simp at hl

lemma mem_debtNames_iff (txs : List Transaction) (name : String) :
    name ∈ (debtBalances txs).map Prod.fst ↔ 0 < debtBalanceOf txs name := by
  rw [List.mem_map]
  constructor
  · rintro ⟨⟨n, b⟩, hmem, rfl⟩
    obtain ⟨hb, hpos⟩ := mem_debtBalances_eq_balance hmem
    exact hb ▸ hpos
  · intro h
    have hany : txs.any (fun t => trimmedCp t == some name) = true := by
      by_contra hc
      have h0 := debtBalanceOf_zero_of_any_false
        (Bool.eq_false_iff.2 (by simpa using hc))
      rw [h0] at h
      exact absurd h (by simp)
    refine ⟨(name, debtBalanceOf txs name), ?_, rfl⟩
    rw [mem_debtBalances_iff, lookup_foldBalances]
    simp [hany, h]

lemma decodeCounterparty_eq_some {v : Option Json} {s : String} :
    decodeCounterparty v = some s ↔ v = some (.str s) := by
  cases v with
  | none => simp [decodeCounterparty]
  | some j => cases j <;> simp [decodeCounterparty]

lemma sum_map_amount_congr {l : List Transaction} {p q : Transaction → Bool}
    (h : ∀ t ∈ l, p t = q t) :
    ((l.filter p).map (·.amount)).sum = ((l.filter q).map (·.amount)).sum := by
  rw [List.filter_congr h]

lemma foldl_add_amount (l : List Transaction) (init : Int) :
    l.foldl (fun sum t => sum + t.amount) init = init + (l.map (·.amount)).sum := by
  induction l generalizing init with
  | nil => simp
  | cons t rest ih =>
      rw [List.foldl_cons, ih, List.map_cons, List.sum_cons, add_assoc]

/-! ### Claim theorems -/

/-- C1: for every input string `text`, the extractor `parseInputText` never
throws to its caller (the embedded functions are total on every backend
outcome), and any internal failure — the backend call raising (network
failure, missing backend, bad credentials) or inference output on which
`JSON.parse` fails — returns the ParseResult `{ intent: 'UNKNOWN',
rawText: text }`. Proved for both source variants of the function. -/
theorem extract_failure_degrades_to_unknown (backend : String → GenOutcome)
    (text : String)
    (h : backend text = .throw ∨ backend text = .replyBadJson) :
    GeminiService.parseInputText backend text = unknownResult text ∧
    Part000.parseInputText backend text = unknownResult text := by
  rcases h with h | h <;>
    exact ⟨by unfold GeminiService.parseInputText; rw [h],
      by unfold Part000.parseInputText; rw [h]⟩

/-- Witness for C1 at a concrete failing backend and input. -/
theorem extract_failure_degrades_to_unknown_witness :
    GeminiService.parseInputText (fun _ => .throw) "Sold bread 5000"
        = unknownResult "Sold bread 5000" ∧
    Part000.parseInputText (fun _ => .throw) "Sold bread 5000"
        = unknownResult "Sold bread 5000" :=
  extract_failure_degrades_to_unknown (fun _ => .throw) "Sold bread 5000"
    (Or.inl rfl)

/-- C2 counterexample: the extractor performs no schema validation. A
backend response that is syntactically valid JSON but carries the invalid
intent enum value `"FOO"` is returned as-is (its `intent` field is
`"FOO"`), not coerced to the UNKNOWN degradation value as the claim
states. -/
theorem extract_schema_validation_cex :
    (GeminiService.parseInputText
        (fun _ => .replyJson (.obj [("intent", .str "FOO")])) "hi").intent
      = some (.str "FOO") ∧
    GeminiService.parseInputText
        (fun _ => .replyJson (.obj [("intent", .str "FOO")])) "hi"
      ≠ unknownResult "hi" := by
  refine ⟨rfl, fun h => ?_⟩
  have h2 : (some (Json.str "FOO") : Option Json) = some (Json.str "UNKNOWN") :=
    congrArg ParseResult.intent h
  simp at h2

/-- C2 (amended): a response that is malformed JSON is coerced to the
UNKNOWN degradation value; a response that parses as JSON is returned
as-is with `rawText` attached — the extractor itself validates neither
enum values nor amount types (schema constraints are only declared to the
backend in the request). -/
theorem extract_schema_validation_amended (backend : String → GenOutcome)
    (text : String) :
    (backend text = .replyBadJson →
      GeminiService.parseInputText backend text = unknownResult text) ∧
    (∀ j, backend text = .replyJson j →
      GeminiService.parseInputText backend text = spreadWithRawText j text) := by
  constructor
  · intro h
    unfold GeminiService.parseInputText
    rw [h]
  · intro j h
    unfold GeminiService.parseInputText
    rw [h]

/-- Witness for the amended C2 at a concrete backend reply. -/
theorem extract_schema_validation_amended_witness :
    GeminiService.parseInputText
        (fun _ => .replyJson (.obj [("intent", .str "FOO")])) "x"
      = spreadWithRawText (.obj [("intent", .str "FOO")]) "x" :=
  (extract_schema_validation_amended
    (fun _ => .replyJson (.obj [("intent", .str "FOO")])) "x").2 _ rfl

/-- C3 counterexample: the extractor does not enforce intent–field
consistency. A backend response with intent `UNKNOWN` that also carries
an `amount` field yields a ParseResult with intent `UNKNOWN` and a
populated `amount` — contradicting the claim that an UNKNOWN result
carries no field other than `intent` and `rawText`. -/
theorem parse_result_field_consistency_cex :
    (GeminiService.parseInputText
        (fun _ => .replyJson
          (.obj [("intent", .str "UNKNOWN"), ("amount", .num 5)])) "hm").intent
      = some (.str "UNKNOWN") ∧
    (GeminiService.parseInputText
        (fun _ => .replyJson
          (.obj [("intent", .str "UNKNOWN"), ("amount", .num 5)])) "hm").amount
      = some (.num 5) :=
  ⟨rfl, rfl⟩

/-- C3 (amended): field–intent consistency is not enforced by the
extractor. The degradation results of the failure paths carry no optional
field; on the success path every declared field is copied verbatim from
the backend's response object, whatever the intent. -/
theorem parse_result_field_consistency_amended (backend : String → GenOutcome)
    (text : String) :
    ((backend text = .throw ∨ backend text = .replyBadJson) →
      (GeminiService.parseInputText backend text).type = none ∧
      (GeminiService.parseInputText backend text).amount = none ∧
      (GeminiService.parseInputText backend text).category = none ∧
      (GeminiService.parseInputText backend text).counterparty = none ∧
      (GeminiService.parseInputText backend text).queryRange = none) ∧
    (∀ j, backend text = .replyJson j →
      (GeminiService.parseInputText backend text).intent = jsGet j "intent" ∧
      (GeminiService.parseInputText backend text).type = jsGet j "type" ∧
      (GeminiService.parseInputText backend text).amount = jsGet j "amount" ∧
      (GeminiService.parseInputText backend text).category
        = jsGet j "category" ∧
      (GeminiService.parseInputText backend text).counterparty
        = jsGet j "counterparty" ∧
      (GeminiService.parseInputText backend text).queryRange
        = jsGet j "queryRange") := by
  constructor
  · rintro (h | h) <;>
      · unfold GeminiService.parseInputText
        rw [h]
        exact ⟨rfl, rfl, rfl, rfl, rfl⟩
  · intro j h
    unfold GeminiService.parseInputText
    rw [h]
    exact ⟨rfl, rfl, rfl, rfl, rfl, rfl⟩

/-- Witness for the amended C3 at a concrete failing backend. -/
theorem parse_result_field_consistency_amended_witness :
    (GeminiService.parseInputText (fun _ => .throw) "y").amount = none :=
  ((parse_result_field_consistency_amended (fun _ => .throw) "y").1
    (Or.inl rfl)).2.1

/-- A pending ParseResult with intent RECORD and type DEBT but no
counterparty, as the backend may produce (its response schema declares
`counterparty` nullable). -/
def pendingDebtNoCp : ParseResult :=
  { intent := some (.str "RECORD")
    type := some (.str "DEBT")
    amount := some (.num 1000)
    category := some (.str "Credit")
    rawText := "Credit sale 1000" }

/-- C4 counterexample: `confirmTransaction` performs no validation. From a
RECORD ParseResult of type DEBT without counterparty it commits a DEBT
transaction with no counterparty, violating the §3 invariant the claim
asserts of every committed transaction. -/
theorem confirm_invariant_cex :
    pendingDebtNoCp.intent = some (.str "RECORD") ∧
    (confirmTransaction pendingDebtNoCp "1" 0).type = .DEBT ∧
    (confirmTransaction pendingDebtNoCp "1" 0).counterparty = none ∧
    debtHasCounterparty (confirmTransaction pendingDebtNoCp "1" 0) = false :=
  ⟨rfl, rfl, rfl, by decide⟩

/-- C4 (amended): the transaction committed by `confirmTransaction`
satisfies the §3 invariant exactly when the pending result's decoded type
is not DEBT/DEBT_PAYMENT, or its counterparty field is a non-empty
string; the confirmation step itself enforces nothing. -/
theorem confirm_invariant_amended (p : ParseResult) (id : String)
    (date : Int) :
    debtHasCounterparty (confirmTransaction p id date) = true ↔
      ((decodeTxType p.type ≠ .DEBT ∧ decodeTxType p.type ≠ .DEBT_PAYMENT) ∨
        ∃ s, p.counterparty = some (.str s) ∧ s ≠ "") := by
  simp only [debtHasCounterparty, confirmTransaction]
  by_cases ht : decodeTxType p.type = .DEBT ∨ decodeTxType p.type = .DEBT_PAYMENT
  · rw [if_pos ht]
    constructor
    · intro hmatch
      cases hd : decodeCounterparty p.counterparty with
      | none => rw [hd] at hmatch; simp at hmatch
      | some s =>
          rw [hd] at hmatch
          simp at hmatch
          exact Or.inr ⟨s, decodeCounterparty_eq_some.1 hd, hmatch⟩
    · rintro (hne | ⟨s, hcp, hs⟩)
      · exact absurd ht (by tauto)
      · rw [decodeCounterparty_eq_some.2 hcp]
        simpa using hs
  · rw [if_neg ht]
    constructor
    · intro _
      exact Or.inl ⟨fun h => ht (Or.inl h), fun h => ht (Or.inr h)⟩
    · intro _
      rfl

/-- C5 counterexample: `parseReceiptImage` never returns the original
input in `rawText`: the failure path yields `"Failed to scan receipt"`
and the success path a synthesized `"Receipt from …"` string, neither of
which is the input `"abc"`. -/
theorem raw_text_preserved_cex :
    (GeminiService.parseReceiptImage (fun _ => .throw) "abc" "image/png").rawText
      = "Failed to scan receipt" ∧
    (GeminiService.parseReceiptImage (fun _ => .throw) "abc" "image/png").rawText
      ≠ "abc" ∧
    (GeminiService.parseReceiptImage (fun _ => .replyJson (.obj []))
      "abc" "image/png").rawText = "Receipt from Unknown" := by
  refine ⟨rfl, fun h => ?_, rfl⟩
  have h2 : "Failed to scan receipt" = "abc" := h
  simp at h2

/-- C5 (amended): `parseInputText` returns `rawText = text` on every path
(both source variants); `parseReceiptImage` instead returns either the
fixed failure string or a synthesized `"Receipt from " ++ name`
description, never the original input. -/
theorem raw_text_preserved_amended (backend : String → GenOutcome)
    (rcpt : String × String → GenOutcome) (text b64 mime : String) :
    (GeminiService.parseInputText backend text).rawText = text ∧
    (Part000.parseInputText backend text).rawText = text ∧
    ((GeminiService.parseReceiptImage rcpt b64 mime).rawText
        = "Failed to scan receipt" ∨
      ∃ name, (GeminiService.parseReceiptImage rcpt b64 mime).rawText
        = "Receipt from " ++ name) := by
  refine ⟨?_, ?_, ?_⟩
  · unfold GeminiService.parseInputText
    cases backend text <;> rfl
  · unfold Part000.parseInputText
    cases backend text <;> rfl
  · unfold GeminiService.parseReceiptImage
    cases rcpt (b64, mime) with
    | throw => exact Or.inl rfl
    | replyNoText => exact Or.inr ⟨_, rfl⟩
    | replyJson j => exact Or.inr ⟨_, rfl⟩
    | replyBadJson => exact Or.inl rfl

/-- An arbitrary DEBT transaction, used to state that DEBT contributes to
neither side of the report aggregation. -/
def debtTxOf (id cat : String) (amt : Int) (cp note : Option String)
    (date : Int) : Transaction :=
  { id := id
    type := .DEBT
    amount := amt
    category := cat
    counterparty := cp
    note := note
    date := date }

/-- C6: for every transaction list and window start, the report
aggregation's inflow is exactly the sum of the amounts of the INCOME and
DEBT_PAYMENT transactions in the window, its outflow exactly the sum of
the EXPENSE ones, net = inflow − outflow, and a DEBT transaction
(of any amount, date, or counterparty) contributes to neither side. -/
theorem report_aggregation_correct (txs : List Transaction)
    (startDate : Int) :
    (reportData txs startDate).totalIn = inflowSpec txs startDate ∧
    (reportData txs startDate).totalOut = outflowSpec txs startDate ∧
    (reportData txs startDate).net =
      (reportData txs startDate).totalIn - (reportData txs startDate).totalOut ∧
    ∀ (id cat : String) (amt : Int) (cp note : Option String) (date : Int),
      (reportData (debtTxOf id cat amt cp note date :: txs)
          startDate).totalIn = (reportData txs startDate).totalIn ∧
      (reportData (debtTxOf id cat amt cp note date :: txs)
          startDate).totalOut = (reportData txs startDate).totalOut ∧
      (reportData (debtTxOf id cat amt cp note date :: txs)
          startDate).net = (reportData txs startDate).net := by
  refine ⟨?_, ?_, rfl, ?_⟩
  · show ((txs.filter fun t => decide (startDate ≤ t.date)).filter fun t =>
        decide (t.type = .INCOME) || decide (t.type = .DEBT_PAYMENT)).foldl
          (fun sum t => sum + t.amount) 0 = inflowSpec txs startDate
    rw [foldl_add_amount, zero_add, List.filter_filter, inflowSpec]
    exact sum_map_amount_congr fun t _ => Bool.and_comm _ _
  · show ((txs.filter fun t => decide (startDate ≤ t.date)).filter fun t =>
        decide (t.type = .EXPENSE)).foldl (fun sum t => sum + t.amount) 0
      = outflowSpec txs startDate
    rw [foldl_add_amount, zero_add, List.filter_filter, outflowSpec]
    exact sum_map_amount_congr fun t _ => Bool.and_comm _ _
  · intro id cat amt cp note date
    have hfilter : ∀ q : Transaction → Bool,
        q (debtTxOf id cat amt cp note date) = false →
        ((debtTxOf id cat amt cp note date :: txs).filter
              (fun t => decide (startDate ≤ t.date))).filter q
          = ((txs.filter fun t => decide (startDate ≤ t.date)).filter q) := by
      intro q hq
      rw [List.filter_cons]
      by_cases hd : decide (startDate ≤ (debtTxOf id cat amt cp note date).date)
          = true
      · rw [if_pos hd, List.filter_cons, hq]
        simp
      · rw [if_neg (by simpa using hd)]
    have hin := hfilter
      (fun t => decide (t.type = .INCOME) || decide (t.type = .DEBT_PAYMENT))
      (by simp [debtTxOf])
    have hout := hfilter (fun t => decide (t.type = .EXPENSE))
      (by simp [debtTxOf])
    refine ⟨?_, ?_, ?_⟩
    · show (_ : List Transaction).foldl (fun sum t => sum + t.amount) 0 = _
      rw [hin]
      rfl
    · show (_ : List Transaction).foldl (fun sum t => sum + t.amount) 0 = _
      rw [hout]
      rfl
    · show (_ : List Transaction).foldl (fun sum t => sum + t.amount) 0
          - (_ : List Transaction).foldl (fun sum t => sum + t.amount) 0 = _
      rw [hin, hout]
      rfl

/-- C7: a backend response with intent RECORD and no amount field is
returned as-is by the extractor — intent stays RECORD and amount stays
absent, no degradation to UNKNOWN — and it is the confirmation layer
(`confirmTransaction`, via `pendingConfirm.amount || 0`) that supplies
the default amount `0` when committing. -/
theorem extract_partial_record_preserved (backend : String → GenOutcome)
    (text : String) (j : Json) (h : backend text = .replyJson j)
    (hi : jsGet j "intent" = some (.str "RECORD"))
    (ha : jsGet j "amount" = none) :
    GeminiService.parseInputText backend text = spreadWithRawText j text ∧
    (GeminiService.parseInputText backend text).intent
      = some (.str "RECORD") ∧
    (GeminiService.parseInputText backend text).amount = none ∧
    ∀ (id : String) (date : Int),
      (confirmTransaction (GeminiService.parseInputText backend text)
        id date).amount = 0 := by
  have hr : GeminiService.parseInputText backend text = spreadWithRawText j text := by
    unfold GeminiService.parseInputText
    rw [h]
  rw [hr]
  refine ⟨rfl, hi, ha, ?_⟩
  intro id date
  show decodeAmount (spreadWithRawText j text).amount = 0
  rw [show (spreadWithRawText j text).amount = none from ha]
  rfl

/-- A concrete RECORD response without an amount field. -/
def recordNoAmountJson : Json :=
  .obj [("intent", .str "RECORD"), ("type", .str "EXPENSE"),
    ("category", .str "Rent")]

/-- Witness for C7 at a concrete partial RECORD response. -/
theorem extract_partial_record_preserved_witness :
    (GeminiService.parseInputText (fun _ => .replyJson recordNoAmountJson)
        "Paid rent").intent = some (.str "RECORD") ∧
    (GeminiService.parseInputText (fun _ => .replyJson recordNoAmountJson)
        "Paid rent").amount = none ∧
    (confirmTransaction
        (GeminiService.parseInputText (fun _ => .replyJson recordNoAmountJson)
          "Paid rent") "1" 0).amount = 0 := by
  obtain ⟨-, h2, h3, h4⟩ := extract_partial_record_preserved
    (fun _ => .replyJson recordNoAmountJson) "Paid rent" recordNoAmountJson
    rfl rfl rfl
  exact ⟨h2, h3, h4 "1" 0⟩

/-- C8: the extractor is stateless and idempotent. In state-passing form
over the app's only shared mutable store, a call leaves the store
unchanged; a second call on the unchanged store with the same input
returns the identical ParseResult; and the result depends on nothing but
the backend's reply for the given literal input text. -/
theorem extract_stateless_idempotent (ls : LocalStorage)
    (backend other : String → GenOutcome) (text : String) :
    (parseInputTextWithStore ls backend text).2 = ls ∧
    (parseInputTextWithStore (parseInputTextWithStore ls backend text).2
        backend text).1 = (parseInputTextWithStore ls backend text).1 ∧
    (other text = backend text →
      GeminiService.parseInputText other text
        = GeminiService.parseInputText backend text) := by
  refine ⟨rfl, rfl, fun h => ?_⟩
  unfold GeminiService.parseInputText
  rw [h]

/-- Witness for C8 at a concrete store, backend, and input. -/
theorem extract_stateless_idempotent_witness :
    GeminiService.parseInputText (fun _ => .throw) "a"
      = GeminiService.parseInputText (fun _ => .throw) "a" :=
  (extract_stateless_idempotent (fun _ => none) (fun _ => .throw)
    (fun _ => .throw) "a").2.2 rfl

/-- A DEBT transaction whose counterparty is a whitespace-only string:
its trimmed balance key is the empty name `""`. -/
def whitespaceDebtTx : Transaction :=
  { id := "1"
    type := .DEBT
    amount := 100
    category := "Credit"
    counterparty := some " "
    date := 0 }

/-- C9 counterexample: with a single DEBT of 100 whose counterparty is
`" "`, the listing contains the trimmed name `""` with balance 100; but
after `clearFullDebt("", 100)` appends a DEBT_PAYMENT of exactly that
balance, the name `""` still appears — the payment's empty counterparty
is falsy and is skipped by the balance loop — refuting the claim's
consequence. -/
theorem debt_settlement_cex :
    ("", 100) ∈ debtBalances [whitespaceDebtTx] ∧
    "" ∈ (debtBalances
        (clearFullDebt [whitespaceDebtTx] "2" 1 "" 100)).map Prod.fst := by
  constructor
  · decide
  · decide

/-- C9 (amended): the debt listing contains exactly the (trimmed,
guarded) counterparty names with strictly positive DEBT-minus-DEBT_PAYMENT
total, each listed with exactly that total; and settling a listed
**non-empty** name with `clearFullDebt` of its listed balance removes it
from the listing. (For the empty name — arising from whitespace-only
counterparties — the settlement payment is skipped by the balance loop's
falsiness guard and the name stays listed.) -/
theorem debt_listing_amended (txs : List Transaction) :
    (∀ name, name ∈ (debtBalances txs).map Prod.fst ↔
      0 < debtBalanceOf txs name) ∧
    (∀ name b, (name, b) ∈ debtBalances txs → b = debtBalanceOf txs name) ∧
    (∀ name b id date, (name, b) ∈ debtBalances txs → name ≠ "" →
      name ∉ (debtBalances
        (clearFullDebt txs id date name b)).map Prod.fst) := by
  refine ⟨mem_debtNames_iff txs, fun name b h =>
    (mem_debtBalances_eq_balance h).1, ?_⟩
  intro name b id date hmem hne
  have hb := (mem_debtBalances_eq_balance hmem).1
  have htrim : jsTrim name = name := by
    have hmem2 : (name, b) ∈ (txs.foldl updateBalances []).filter
        fun p => decide (0 < p.2) := hmem
    have hkey : name ∈ (txs.foldl updateBalances []).map Prod.fst :=
      List.mem_map_of_mem Prod.fst (List.mem_filter.1 hmem2).1
    exact keys_trim_foldBalances txs [] (by simp) name hkey
  rw [mem_debtNames_iff]
  show ¬(0 < debtBalanceOf (clearFullDebtTx id date name b :: txs) name)
  rw [debtBalanceOf_cons]
  have hcp : trimmedCp (clearFullDebtTx id date name b) = some name := by
    unfold trimmedCp clearFullDebtTx
    simp [hne, htrim]
  rw [debtContrib_of_cp hcp]
  show ¬(0 < -b + debtBalanceOf txs name)
  rw [← hb]
  simp

/-- The demo DEBT transaction of the repository's seed data
(`generateDemoData` in `src/utils/storage.ts`): Musa owes 15000. -/
def musaDebtTx : Transaction :=
  { id := "5"
    type := .DEBT
    amount := 15000
    category := "Credit"
    counterparty := some "Musa"
    date := 0 }

/-- Witness for the amended C9 on a concrete one-debt ledger. -/
theorem debt_listing_amended_witness :
    ("Musa", 15000) ∈ debtBalances [musaDebtTx] ∧
    15000 = debtBalanceOf [musaDebtTx] "Musa" ∧
    "Musa" ∉ (debtBalances
        (clearFullDebt [musaDebtTx] "6" 1 "Musa" 15000)).map Prod.fst := by
  have h := debt_listing_amended [musaDebtTx]
  have hmem : ("Musa", 15000) ∈ debtBalances [musaDebtTx] := by decide
  exact ⟨hmem, h.2.1 "Musa" 15000 hmem,
    h.2.2 "Musa" 15000 "6" 1 hmem (by decide)⟩

/-- The first seeded demo transaction (`generateDemoData` in
`src/utils/storage.ts`): a sale of 45000. -/
def demoSaleTx : Transaction :=
  { id := "1"
    type := .INCOME
    amount := 45000
    category := "Sales"
    date := 0 }

/-- C10 counterexample: `saveTransactions` declares the single parameter
`txs`, so the app-level call `saveTransactions(state.user.id, updated)`
binds it to the user id and discards the transaction list. After the save
for user `"userA"` of a one-sale list, the shared entry holds the
serialized user id string, and a read (here for `"userB"`) returns that
string, not the saved transaction list — transactions are never stored,
refuting the claim's consequence that users read and overwrite one
another's transactions. -/
theorem storage_ignores_user_id_cex :
    appGetStoredTransactions
        (appSaveTransactions (fun _ => none) "userA" [demoSaleTx]) "userB"
      = .str "userA" ∧
    appGetStoredTransactions
        (appSaveTransactions (fun _ => none) "userA" [demoSaleTx]) "userB"
      ≠ .txList [demoSaleTx] := by
  constructor
  · rfl
  · decide

/-- C10 (amended): reads ignore the owning-user identifier —
`getStoredTransactions` declares no user parameter and returns the single
shared entry whatever id the app passes — and the app-level save writes
to the single shared key for every user; but because the user id argument
is bound to `saveTransactions`' only parameter, what it stores there is
the serialized user id string, the transaction list being discarded, and
every other user's read then finds that string. -/
theorem storage_shared_key_stores_user_id (ls : LocalStorage)
    (u₁ u₂ : String) (txs : List Transaction) :
    appGetStoredTransactions ls u₁ = appGetStoredTransactions ls u₂ ∧
    appSaveTransactions ls u₁ txs = saveTransactions ls (.str u₁) ∧
    appSaveTransactions ls u₁ txs STORAGE_KEY = some (.str u₁) ∧
    appGetStoredTransactions (appSaveTransactions ls u₁ txs) u₂
      = .str u₁ := by
  refine ⟨rfl, rfl, ?_, ?_⟩
  · show (if STORAGE_KEY = STORAGE_KEY then some (StoredValue.str u₁)
        else ls STORAGE_KEY) = some (.str u₁)
    rw [if_pos rfl]
  · show (if STORAGE_KEY = STORAGE_KEY then some (StoredValue.str u₁)
        else ls STORAGE_KEY).getD (.txList []) = .str u₁
    rw [if_pos rfl]
    rfl

end AiLedger
